import Mathlib

/-!
Verification of the core game logic of `cmpm-121-demo-3` (`src/main.ts`):
a map game with deterministic cache generation, a memento-based cache
registry, inventory transfer operations and local-storage persistence.

Modelling conventions:
* JavaScript strings are modelled as lists of characters (`Str`).
* JavaScript numbers occurring in the game logic are integers (cell
  indices produced by `Math.floor`, coin serials) modelled as `Int`,
  or geographic coordinates modelled as `ℚ`.
* `JSON.stringify` of the fixed object shapes appearing in the program
  is modelled by explicit renderers, `JSON.parse` by explicit parsers
  returning `Option` (`none` models a thrown exception).
* JavaScript object identity (needed because `Array.prototype.indexOf`
  compares object references) is modelled by a `ref : Nat` field,
  allocated from a counter threaded through the game state.
-/

set_option maxRecDepth 100000

namespace Geocoin

/-- Strings are modelled as lists of characters. -/
abbrev Str := List Char

/-! ### Kernel-computable rational arithmetic

The `Mul`/`Add`/`Div` instances on `ℚ` are built from `@[irreducible]`
functions, which blocks the evaluation of concrete game states inside
proofs.  The model therefore uses the following equivalent operations. -/

/-- Rational multiplication, kernel-computable. -/
def qmul (a b : ℚ) : ℚ := Rat.divInt (a.num * b.num) ((a.den : Int) * (b.den : Int))

/-- Rational addition, kernel-computable. -/
def qadd (a b : ℚ) : ℚ :=
  Rat.divInt (a.num * (b.den : Int) + b.num * (a.den : Int)) ((a.den : Int) * (b.den : Int))

/-- Rational division, kernel-computable. -/
def qdiv (a b : ℚ) : ℚ := Rat.divInt (a.num * (b.den : Int)) ((a.den : Int) * b.num)

theorem qmul_eq (a b : ℚ) : qmul a b = a * b := by
  rw [qmul]
  conv_rhs => rw [← Rat.num_divInt_den a, ← Rat.num_divInt_den b]
  rw [Rat.divInt_mul_divInt _ _ (by exact_mod_cast a.den_nz) (by exact_mod_cast b.den_nz)]

theorem qadd_eq (a b : ℚ) : qadd a b = a + b := by
  rw [qadd]
  conv_rhs => rw [← Rat.num_divInt_den a, ← Rat.num_divInt_den b]
  rw [Rat.divInt_add_divInt _ _ (by exact_mod_cast a.den_nz) (by exact_mod_cast b.den_nz)]

theorem qdiv_eq (a b : ℚ) : qdiv a b = a / b := (Rat.div_def' a b).symm

/-! ### Decimal rendering and parsing of integers (JS `Number.prototype.toString`) -/

/-- The decimal digit character for `n < 10`. -/
def digitChar : Nat → Char
  | 0 => '0' | 1 => '1' | 2 => '2' | 3 => '3' | 4 => '4'
  | 5 => '5' | 6 => '6' | 7 => '7' | 8 => '8' | _ => '9'

/-- Recognizer for decimal digit characters. -/
def isDigitCh (c : Char) : Bool := 48 ≤ c.toNat && c.toNat ≤ 57

/-- Numeric value of a digit character. -/
def digitVal (c : Char) : Nat := c.toNat - 48

/-- Decimal digits of a natural number, most significant first; structural
recursion on a fuel bound so that concrete values reduce inside proofs. -/
def natToCharsAux : Nat → Nat → Str
  | 0, _ => []
  | fuel + 1, n =>
    if n < 10 then [digitChar n] else natToCharsAux fuel (n / 10) ++ [digitChar (n % 10)]

def natToChars (n : Nat) : Str := natToCharsAux (n + 1) n

theorem natToCharsAux_congr (n : Nat) :
    ∀ f1 f2 : Nat, n < f1 → n < f2 → natToCharsAux f1 n = natToCharsAux f2 n := by
  induction n using Nat.strong_induction_on with
  | _ n ih =>
    intro f1 f2 h1 h2
    cases f1 with
    | zero => omega
    | succ g1 =>
      cases f2 with
      | zero => omega
      | succ g2 =>
        simp only [natToCharsAux]
        split
        · rfl
        · next h =>
          congr 1
          exact ih (n / 10) (Nat.div_lt_self (by omega) (by omega)) g1 g2
            (by omega) (by omega)

/-- The defining recurrence of `natToChars`. -/
theorem natToChars_eq (n : Nat) :
    natToChars n = if n < 10 then [digitChar n]
      else natToChars (n / 10) ++ [digitChar (n % 10)] := by
  unfold natToChars
  simp only [natToCharsAux]
  split
  · rfl
  · next h =>
    congr 1
    exact natToCharsAux_congr (n / 10) n (n / 10 + 1)
      (by omega) (by omega)

/-- Rendering of a JS integer (decimal, `-` sign for negatives). -/
def jsIntChars (n : Int) : Str :=
  if n < 0 then '-' :: natToChars n.natAbs else natToChars n.toNat

/-- Consume a maximal run of digits, accumulating their value. -/
def parseDigitsAux : Str → Nat → Nat × Str
  | c :: cs, acc =>
    if isDigitCh c then parseDigitsAux cs (acc * 10 + digitVal c) else (acc, c :: cs)
  | [], acc => (acc, [])

/-- Parse a nonempty digit run as a natural number. -/
def parseNatChars : Str → Option (Nat × Str)
  | c :: cs => if isDigitCh c then some (parseDigitsAux cs (digitVal c)) else none
  | [] => none

/-- Parse a JS integer: optional `-` sign followed by digits. -/
def parseIntChars (s : Str) : Option (Int × Str) :=
  if s.head? = some '-' then (parseNatChars s.tail).map (fun p => (-(p.1 : Int), p.2))
  else (parseNatChars s).map (fun p => ((p.1 : Int), p.2))

theorem digitChar_isDigit : ∀ n, n < 10 → isDigitCh (digitChar n) = true := by decide

theorem digitVal_digitChar : ∀ n, n < 10 → digitVal (digitChar n) = n := by decide

theorem natToChars_digits (n : Nat) : ∀ c ∈ natToChars n, isDigitCh c = true := by
  induction n using Nat.strong_induction_on with
  | _ n ih =>
    rw [natToChars_eq]
    split
    · intro c hc
      rcases List.mem_singleton.mp hc with rfl
      exact digitChar_isDigit n (by omega)
    · intro c hc
      rcases List.mem_append.mp hc with h | h
      · exact ih (n / 10) (Nat.div_lt_self (by omega) (by omega)) c h
      · rcases List.mem_singleton.mp h with rfl
        exact digitChar_isDigit (n % 10) (Nat.mod_lt n (by omega))

theorem natToChars_ne_nil (n : Nat) : natToChars n ≠ [] := by
  rw [natToChars_eq]
  split
  · simp
  · simp

/-- Folding the digit-accumulation step over the digits of `n` reads `n` back. -/
theorem foldl_natToChars (n : Nat) :
    ∀ a, List.foldl (fun x c => x * 10 + digitVal c) a (natToChars n) =
      a * 10 ^ (natToChars n).length + n := by
  induction n using Nat.strong_induction_on with
  | _ n ih =>
    intro a
    rw [natToChars_eq]
    split
    · next h =>
      simp [List.foldl, digitVal_digitChar n h]
    · next h =>
      rw [List.foldl_append]
      rw [ih (n / 10) (Nat.div_lt_self (by omega) (by omega)) a]
      simp only [List.foldl_cons, List.foldl_nil]
      rw [digitVal_digitChar (n % 10) (Nat.mod_lt n (by omega))]
      have hlen : (natToChars (n / 10) ++ [digitChar (n % 10)]).length =
          (natToChars (n / 10)).length + 1 := by simp
      rw [hlen, pow_succ]
      have h10 : n / 10 * 10 + n % 10 = n := by omega
      calc (a * 10 ^ (natToChars (n / 10)).length + n / 10) * 10 + n % 10
          = a * (10 ^ (natToChars (n / 10)).length * 10) + (n / 10 * 10 + n % 10) := by ring
        _ = a * (10 ^ (natToChars (n / 10)).length * 10) + n := by rw [h10]

/-- A string starts with a non-digit (or is empty). -/
def nonDigitStart : Str → Prop
  | [] => True
  | c :: _ => isDigitCh c = false

instance : ∀ s, Decidable (nonDigitStart s)
  | [] => by unfold nonDigitStart; infer_instance
  | _ :: _ => by unfold nonDigitStart; infer_instance

theorem parseDigitsAux_append (ds : Str) (hds : ∀ c ∈ ds, isDigitCh c = true)
    (rest : Str) (hrest : nonDigitStart rest) (a : Nat) :
    parseDigitsAux (ds ++ rest) a =
      (List.foldl (fun x c => x * 10 + digitVal c) a ds, rest) := by
  induction ds generalizing a with
  | nil =>
    cases rest with
    | nil => simp [parseDigitsAux]
    | cons c cs =>
      simp only [List.nil_append, List.foldl_nil, parseDigitsAux]
      rw [show isDigitCh c = false from hrest]
      simp
  | cons d ds ih =>
    simp only [List.cons_append, parseDigitsAux, List.foldl_cons]
    rw [hds d (List.mem_cons_self d ds)]
    simp only [if_true]
    exact ih (fun c hc => hds c (List.mem_cons_of_mem d hc)) _

theorem parseNatChars_natToChars (n : Nat) (rest : Str) (hrest : nonDigitStart rest) :
    parseNatChars (natToChars n ++ rest) = some (n, rest) := by
  have hd := natToChars_digits n
  have hne := natToChars_ne_nil n
  rcases h : natToChars n with _ | ⟨c, cs⟩
  · exact absurd h hne
  · have hdc : ∀ x ∈ c :: cs, isDigitCh x = true := by rw [← h]; exact hd
    simp only [List.cons_append, parseNatChars]
    rw [hdc c (List.mem_cons_self c cs)]
    simp only [if_true]
    rw [parseDigitsAux_append cs (fun x hx => hdc x (List.mem_cons_of_mem c hx)) rest hrest]
    have hfold := foldl_natToChars n 0
    rw [h] at hfold
    simp only [List.foldl_cons, zero_mul, zero_add] at hfold
    rw [hfold]

theorem parseIntChars_jsIntChars (n : Int) (rest : Str) (hrest : nonDigitStart rest) :
    parseIntChars (jsIntChars n ++ rest) = some (n, rest) := by
  unfold jsIntChars
  split
  · next h =>
    unfold parseIntChars
    rw [if_pos (by simp)]
    simp only [List.cons_append, List.tail_cons]
    rw [parseNatChars_natToChars n.natAbs rest hrest]
    have hval : -((n.natAbs : Nat) : Int) = n := by omega
    simp only [Option.map_some']
    rw [hval]
  · next h =>
    have hne := natToChars_ne_nil n.toNat
    rcases hcase : natToChars n.toNat with _ | ⟨c, cs⟩
    · exact absurd hcase hne
    · have hc : isDigitCh c = true :=
        natToChars_digits n.toNat c (by rw [hcase]; exact List.mem_cons_self c cs)
      have hcne : ¬(c = '-') := by
        intro hcc
        rw [hcc] at hc
        exact absurd hc (by decide)
      unfold parseIntChars
      rw [if_neg (by simp [hcne])]
      rw [← hcase, parseNatChars_natToChars n.toNat rest hrest]
      have hval : ((n.toNat : Nat) : Int) = n := by omega
      simp only [Option.map_some']
      rw [hval]

/-! ### Data model (source: interfaces `Cell`, `Coin`, `Cache` in `main.ts`) -/

/-- Grid cell coordinates `{i, j}`. -/
structure Cell where
  i : Int
  j : Int
deriving DecidableEq, Repr

/-- Coin data `{cell, serial}` (value level). -/
structure Coin where
  cell : Cell
  serial : Int
deriving DecidableEq, Repr

/-- Cache data `{cell, coins}` (value level). -/
structure Cache where
  cell : Cell
  coins : List Coin
deriving DecidableEq, Repr

/-! ### The memento codec: `toMomento` / `fromMomento`

`toMomento` is `JSON.stringify(cache)`, rendered according to the fixed
shape and property-insertion order of the objects built by the program
(`{cell, coins}`, `{cell, serial: k}`, `{i, j}`).  `fromMomento` is
`JSON.parse(momento)` specialised to that same shape; `none` models a
thrown `SyntaxError` / shape mismatch. -/

/-- The characters of the JSON fragments surrounding the integer fields. -/
abbrev chCellOpen : Str := ['\x7b', '"', 'i', '"', ':']

abbrev chCellMid : Str := [',', '"', 'j', '"', ':']

abbrev chClose : Str := ['\x7d']

abbrev chObjCellKey : Str := ['\x7b', '"', 'c', 'e', 'l', 'l', '"', ':']

abbrev chSerialKey : Str := [',', '"', 's', 'e', 'r', 'i', 'a', 'l', '"', ':']

abbrev chCoinsKey : Str := [',', '"', 'c', 'o', 'i', 'n', 's', '"', ':', '[']

abbrev chEnd : Str := [']', '\x7d']

/-- JSON rendering of a `Cell` object. -/
def cellJsonChars (c : Cell) : Str :=
  chCellOpen ++ jsIntChars c.i ++ chCellMid ++ jsIntChars c.j ++ chClose

/-- JSON rendering of a `Coin` object. -/
def coinJsonChars (c : Coin) : Str :=
  chObjCellKey ++ cellJsonChars c.cell ++ chSerialKey ++ jsIntChars c.serial ++ chClose

/-- Comma-separated rendering of the second and later coins. -/
def coinsTailChars : List Coin → Str
  | [] => []
  | c :: cs => ',' :: (coinJsonChars c ++ coinsTailChars cs)

/-- Comma-separated rendering of a coin array's elements. -/
def coinsJoinChars : List Coin → Str
  | [] => []
  | c :: cs => coinJsonChars c ++ coinsTailChars cs

/-- `JSON.stringify(cache)` (source: `toMomento`). -/
def toMomentoChars (c : Cache) : Str :=
  chObjCellKey ++ cellJsonChars c.cell ++ chCoinsKey ++ coinsJoinChars c.coins ++ chEnd

/-- Consume an expected literal character sequence. -/
def pExpect : Str → Str → Option Str
  | [], s => some s
  | _ :: _, [] => none
  | p :: ps, c :: cs => if c = p then pExpect ps cs else none

/-- Parse a JSON `Cell` object. -/
def pCellJson (s : Str) : Option (Cell × Str) :=
  (pExpect chCellOpen s).bind fun s1 =>
  (parseIntChars s1).bind fun pi =>
  (pExpect chCellMid pi.2).bind fun s2 =>
  (parseIntChars s2).bind fun pj =>
  (pExpect chClose pj.2).map fun s3 => (⟨pi.1, pj.1⟩, s3)

/-- Parse a JSON `Coin` object. -/
def pCoinJson (s : Str) : Option (Coin × Str) :=
  (pExpect chObjCellKey s).bind fun s1 =>
  (pCellJson s1).bind fun pc =>
  (pExpect chSerialKey pc.2).bind fun s2 =>
  (parseIntChars s2).bind fun ps =>
  (pExpect chClose ps.2).map fun s3 => (⟨pc.1, ps.1⟩, s3)

/-- Parse the rest of a JSON coin array after its first element. -/
def pCoinsTail : Nat → Str → Option (List Coin × Str)
  | 0, s =>
    if s.head? = some ']' then some ([], s.tail) else none
  | fuel + 1, s =>
    if s.head? = some ']' then some ([], s.tail)
    else if s.head? = some ',' then
      (pCoinJson s.tail).bind fun pc =>
      (pCoinsTail fuel pc.2).map fun p => (pc.1 :: p.1, p.2)
    else none

/-- Parse a JSON coin array body (after the opening `[`), consuming the `]`. -/
def pCoinsList (fuel : Nat) (s : Str) : Option (List Coin × Str) :=
  if s.head? = some ']' then some ([], s.tail)
  else
    (pCoinJson s).bind fun pc =>
    (pCoinsTail fuel pc.2).map fun p => (pc.1 :: p.1, p.2)

/-- Parse a JSON `Cache` object. -/
def pCacheJson (fuel : Nat) (s : Str) : Option (Cache × Str) :=
  (pExpect chObjCellKey s).bind fun s1 =>
  (pCellJson s1).bind fun pc =>
  (pExpect chCoinsKey pc.2).bind fun s2 =>
  (pCoinsList fuel s2).bind fun pcs =>
  (pExpect chClose pcs.2).map fun s3 => (⟨pc.1, pcs.1⟩, s3)

/-- `JSON.parse(momento)` as a `Cache` (source: `fromMomento`); `none` models a
thrown exception. -/
def fromMomentoChars (s : Str) : Option Cache :=
  match pCacheJson s.length s with
  | some (c, []) => some c
  | _ => none

/-! ### Memento round-trip -/

theorem nonDigitStart_cons (c : Char) (s : Str) (h : isDigitCh c = false) :
    nonDigitStart (c :: s) := h

theorem nonDigitStart_of_head (c : Char) (l s : Str) (h : isDigitCh c = false) :
    nonDigitStart ((c :: l) ++ s) := h

theorem head?_cons_append (c : Char) (l s : Str) : ((c :: l) ++ s).head? = some c := rfl

theorem tail_cons_append (c : Char) (l s : Str) : ((c :: l) ++ s).tail = l ++ s := rfl

theorem coinJsonChars_head (c : Coin) (s : Str) :
    (coinJsonChars c ++ s).head? = some '\x7b' := rfl

theorem pExpect_append (p rest : Str) : pExpect p (p ++ rest) = some rest := by
  induction p with
  | nil => rfl
  | cons c cs ih => simp [pExpect, ih]

theorem pCellJson_render (c : Cell) (rest : Str) :
    pCellJson (cellJsonChars c ++ rest) = some (c, rest) := by
  have h1 : cellJsonChars c ++ rest =
      chCellOpen ++ (jsIntChars c.i ++ (chCellMid ++ (jsIntChars c.j ++ (chClose ++ rest)))) := by
    simp [cellJsonChars]
  rw [h1]
  unfold pCellJson
  rw [pExpect_append]
  simp only [Option.some_bind]
  rw [parseIntChars_jsIntChars c.i (chCellMid ++ (jsIntChars c.j ++ (chClose ++ rest)))
    (nonDigitStart_of_head _ _ _ (by decide))]
  simp only [Option.some_bind]
  rw [pExpect_append]
  simp only [Option.some_bind]
  rw [parseIntChars_jsIntChars c.j (chClose ++ rest) (nonDigitStart_of_head _ _ _ (by decide))]
  simp only [Option.some_bind]
  rw [pExpect_append]
  rfl

theorem pCoinJson_render (c : Coin) (rest : Str) :
    pCoinJson (coinJsonChars c ++ rest) = some (c, rest) := by
  have h1 : coinJsonChars c ++ rest =
      chObjCellKey ++ (cellJsonChars c.cell ++
        (chSerialKey ++ (jsIntChars c.serial ++ (chClose ++ rest)))) := by
    simp [coinJsonChars]
  rw [h1]
  unfold pCoinJson
  rw [pExpect_append]
  simp only [Option.some_bind]
  rw [pCellJson_render]
  simp only [Option.some_bind]
  rw [pExpect_append]
  simp only [Option.some_bind]
  rw [parseIntChars_jsIntChars c.serial (chClose ++ rest)
    (nonDigitStart_of_head _ _ _ (by decide))]
  simp only [Option.some_bind]
  rw [pExpect_append]
  rfl

theorem pCoinsTail_render (coins : List Coin) (rest : Str) (fuel : Nat)
    (hfuel : coins.length ≤ fuel) :
    pCoinsTail fuel (coinsTailChars coins ++ (']' :: rest)) = some (coins, rest) := by
  induction coins generalizing fuel with
  | nil =>
    cases fuel with
    | zero => rfl
    | succ f => rfl
  | cons c cs ih =>
    match fuel, hfuel with
    | fuel + 1, hfuel =>
      rw [coinsTailChars]
      simp only [pCoinsTail]
      rw [head?_cons_append, if_neg (by decide), if_pos rfl, tail_cons_append]
      rw [List.append_assoc, pCoinJson_render]
      simp only [Option.some_bind]
      rw [ih fuel (by simpa using hfuel)]
      rfl

theorem pCoinsList_render (coins : List Coin) (rest : Str) (fuel : Nat)
    (hfuel : coins.length ≤ fuel) :
    pCoinsList fuel (coinsJoinChars coins ++ (']' :: rest)) = some (coins, rest) := by
  cases coins with
  | nil => rfl
  | cons c cs =>
    rw [coinsJoinChars]
    unfold pCoinsList
    rw [List.append_assoc, coinJsonChars_head, if_neg (by decide)]
    rw [pCoinJson_render]
    simp only [Option.some_bind]
    rw [pCoinsTail_render cs rest fuel (by simp at hfuel; omega)]
    rfl

theorem pCacheJson_render (c : Cache) (rest : Str) (fuel : Nat)
    (hfuel : c.coins.length ≤ fuel) :
    pCacheJson fuel (toMomentoChars c ++ rest) = some (c, rest) := by
  have h1 : toMomentoChars c ++ rest =
      chObjCellKey ++ (cellJsonChars c.cell ++
        (chCoinsKey ++ (coinsJoinChars c.coins ++ (']' :: ('\x7d' :: rest))))) := by
    simp [toMomentoChars]
  rw [h1]
  unfold pCacheJson
  rw [pExpect_append]
  simp only [Option.some_bind]
  rw [pCellJson_render]
  simp only [Option.some_bind]
  rw [pExpect_append]
  simp only [Option.some_bind]
  rw [pCoinsList_render c.coins _ fuel hfuel]
  simp only [Option.some_bind]
  rw [show ('\x7d' :: rest) = chClose ++ rest from rfl, pExpect_append]
  rfl

theorem coinsJoinChars_length (coins : List Coin) :
    coins.length ≤ (coinsJoinChars coins).length := by
  have htail : ∀ cs : List Coin, cs.length ≤ (coinsTailChars cs).length := by
    intro cs
    induction cs with
    | nil => simp [coinsTailChars]
    | cons c cs ih => simp [coinsTailChars]; omega
  cases coins with
  | nil => simp [coinsJoinChars]
  | cons c cs =>
    have hne : 1 ≤ (coinJsonChars c).length := by
      simp [coinJsonChars]
    have := htail cs
    simp [coinsJoinChars]
    omega

theorem toMomentoChars_length (c : Cache) :
    c.coins.length ≤ (toMomentoChars c).length := by
  have := coinsJoinChars_length c.coins
  simp [toMomentoChars]
  omega

/-- The memento codec is a lossless round-trip on every cache value. -/
theorem momento_roundtrip (c : Cache) : fromMomentoChars (toMomentoChars c) = some c := by
  unfold fromMomentoChars
  have h := pCacheJson_render c [] (toMomentoChars c).length (toMomentoChars_length c)
  rw [List.append_nil] at h
  rw [h]

/-! ### Heap objects

`Array.prototype.indexOf` compares object references (`===`), so arrays of
live coin objects need object identity: a `ref : Nat` field allocated from a
counter threaded through the state.  Two terms model the same JS object
exactly when they carry the same `ref`. -/

/-- A coin as a live JS object. -/
structure CoinObj where
  ref : Nat
  cell : Cell
  serial : Int
deriving DecidableEq, Repr

/-- The value (field content) of a live coin object. -/
def CoinObj.val (c : CoinObj) : Coin := ⟨c.cell, c.serial⟩

/-- A cache as a live JS object (the local `cache` variable of `spawnCache`,
captured by popup closures). -/
structure CacheObj where
  cell : Cell
  coins : List CoinObj
deriving DecidableEq, Repr

/-- The value of a live cache object. -/
def CacheObj.val (c : CacheObj) : Cache := ⟨c.cell, c.coins.map CoinObj.val⟩

/-- `toMomento` applied to a live cache object serialises its value
(`JSON.stringify` sees only the fields). -/
def toMomentoObj (c : CacheObj) : Str := toMomentoChars c.val

/-- `JSON.parse` creates fresh objects: allocate fresh references. -/
def allocCoins : List Coin → Nat → List CoinObj
  | [], _ => []
  | c :: cs, r => ⟨r, c.cell, c.serial⟩ :: allocCoins cs (r + 1)

/-- `fromMomento` at the object level: parse, then allocate fresh coin
objects. -/
def fromMomentoObj (s : Str) (r : Nat) : Option (CacheObj × Nat) :=
  (fromMomentoChars s).map fun c => (⟨c.cell, allocCoins c.coins r⟩, r + c.coins.length)

theorem allocCoins_val (coins : List Coin) (r : Nat) :
    (allocCoins coins r).map CoinObj.val = coins := by
  induction coins generalizing r with
  | nil => rfl
  | cons c cs ih => simp [allocCoins, CoinObj.val, ih]

theorem allocCoins_length (coins : List Coin) (r : Nat) :
    (allocCoins coins r).length = coins.length := by
  induction coins generalizing r with
  | nil => rfl
  | cons c cs ih => simp [allocCoins, ih]

/-! ### JS `Map` with string keys, as an insertion-ordered association list -/

/-- `Map.prototype.get`. -/
def mapGet {α : Type} : List (Str × α) → Str → Option α
  | [], _ => none
  | (k, v) :: m, key => if k = key then some v else mapGet m key

/-- `Map.prototype.set`: overwrite in place, append if absent. -/
def mapSet {α : Type} : List (Str × α) → Str → α → List (Str × α)
  | [], key, v => [(key, v)]
  | (k, w) :: m, key, v => if k = key then (k, v) :: m else (k, w) :: mapSet m key v

/-- `Map.prototype.delete`. -/
def mapDelete {α : Type} : List (Str × α) → Str → List (Str × α)
  | [], _ => []
  | (k, v) :: m, key => if k = key then m else (k, v) :: mapDelete m key

/-! ### Game constants (source: tunable gameplay parameters) -/

def TILE_DEGREES : ℚ := mkRat 1 10000

def NEIGHBORHOOD_SIZE : Nat := 8

def CACHE_SPAWN_PROBABILITY : ℚ := mkRat 1 10

/-- `leaflet.latLng(36.98949379578401, -122.06277128548504)` as an exact pair
(lat, lng) of rationals. -/
def initialPlayerLocation : ℚ × ℚ :=
  (mkRat 3698949379578401 (10 ^ 14), -mkRat 12206277128548504 (10 ^ 14))

/-- `[cell.i, cell.j].toString()` (source: `cellToString`). -/
def cellToString (c : Cell) : Str := jsIntChars c.i ++ (',' :: jsIntChars c.j)

abbrev strNumCoins : Str := ['n', 'u', 'm', 'C', 'o', 'i', 'n', 's']

/-- `[cell.i, cell.j, "numCoins"].toString()`, the seed used by
`generateCoins`. -/
def numCoinsSeed (c : Cell) : Str := cellToString c ++ (',' :: strNumCoins)

/-! ### Storage record rendering (`JSON.stringify` of the persisted shapes) -/

abbrev kCaches : Str := ['c', 'a', 'c', 'h', 'e', 's']

abbrev kInventory : Str := ['i', 'n', 'v', 'e', 'n', 't', 'o', 'r', 'y']

abbrev kPlayerLocation : Str :=
  ['p', 'l', 'a', 'y', 'e', 'r', 'L', 'o', 'c', 'a', 't', 'i', 'o', 'n']

/-- JSON escaping of string content (`"` and `\` get a backslash; other
characters in reachable data need no escaping). -/
def jsonEscape : Str → Str
  | [] => []
  | c :: cs =>
    if c = '"' ∨ c = '\\' then '\\' :: c :: jsonEscape cs else c :: jsonEscape cs

/-- A JSON string literal. -/
def jsonStringChars (s : Str) : Str := '"' :: (jsonEscape s ++ ['"'])

/-- One `[cellKey, memento]` pair of `Array.from(caches.entries())`. -/
def renderCachePair (p : Str × Str) : Str :=
  '[' :: (jsonStringChars p.1 ++ (',' :: jsonStringChars p.2) ++ [']'])

def renderPairsTail : List (Str × Str) → Str
  | [] => []
  | p :: ps => ',' :: (renderCachePair p ++ renderPairsTail ps)

/-- `JSON.stringify(Array.from(caches.entries()))` (source: `saveCaches`). -/
def renderCaches (m : List (Str × Str)) : Str :=
  match m with
  | [] => ['[', ']']
  | p :: ps => '[' :: (renderCachePair p ++ renderPairsTail ps ++ [']'])

/-- `JSON.stringify(playerInventory)` (source: `saveInventory`). -/
def renderInventory (coins : List Coin) : Str := '[' :: (coinsJoinChars coins ++ [']'])

/-- Rendering of a JS number; exact for integers.  The decimal formatting of
non-integral coordinates is abbreviated to a `num/den` form — no claim
inspects the rendering of non-integral coordinates. -/
def jsNumChars (q : ℚ) : Str :=
  if q.den = 1 then jsIntChars q.num
  else jsIntChars q.num ++ ('/' :: natToChars q.den)

abbrev chLatKey : Str := ['\x7b', '"', 'l', 'a', 't', '"', ':']

abbrev chLngKey : Str := [',', '"', 'l', 'n', 'g', '"', ':']

/-- JSON rendering of one leaflet `LatLng` history point. -/
def latLngJson (p : ℚ × ℚ) : Str :=
  chLatKey ++ jsNumChars p.1 ++ chLngKey ++ jsNumChars p.2 ++ chClose

def latLngsTailChars : List (ℚ × ℚ) → Str
  | [] => []
  | p :: ps => ',' :: (latLngJson p ++ latLngsTailChars ps)

/-- `JSON.stringify(playerMovementHistory.getLatLngs())`
(source: `savePlayerLocation`). -/
def renderHistory (h : List (ℚ × ℚ)) : Str :=
  match h with
  | [] => ['[', ']']
  | p :: ps => '[' :: (latLngJson p ++ latLngsTailChars ps ++ [']'])

/-! ### Storage record parsing (`JSON.parse` of the persisted shapes;
`none` models a thrown `SyntaxError` or shape mismatch) -/

/-- Body of a JSON string literal after the opening quote (fuel-bounded
structural recursion; the fuel is instantiated with the string length). -/
def pStringBodyAux : Nat → Str → Option (Str × Str)
  | 0, _ => none
  | fuel + 1, s =>
    match s with
    | [] => none
    | c :: s =>
      if c = '"' then some ([], s)
      else if c = '\\' then
        match s with
        | [] => none
        | e :: s2 => (pStringBodyAux fuel s2).map fun p => (e :: p.1, p.2)
      else (pStringBodyAux fuel s).map fun p => (c :: p.1, p.2)

def pStringBody (s : Str) : Option (Str × Str) := pStringBodyAux s.length s

/-- A JSON string literal. -/
def pStrLit (s : Str) : Option (Str × Str) :=
  if s.head? = some '"' then pStringBody s.tail else none

/-- One `["cellKey","memento"]` pair. -/
def pCachePair (s : Str) : Option ((Str × Str) × Str) :=
  if s.head? = some '[' then
    (pStrLit s.tail).bind fun k =>
    if k.2.head? = some ',' then
      (pStrLit k.2.tail).bind fun v =>
      if v.2.head? = some ']' then some ((k.1, v.1), v.2.tail) else none
    else none
  else none

def pPairsTail : Nat → Str → Option (List (Str × Str) × Str)
  | 0, s => if s.head? = some ']' then some ([], s.tail) else none
  | fuel + 1, s =>
    if s.head? = some ']' then some ([], s.tail)
    else if s.head? = some ',' then
      (pCachePair s.tail).bind fun pc =>
      (pPairsTail fuel pc.2).map fun p => (pc.1 :: p.1, p.2)
    else none

/-- `JSON.parse` of the `"caches"` record: an array of string pairs. -/
def parseCachesJson (s : Str) : Option (List (Str × Str)) :=
  if s.head? = some '[' then
    if s.tail.head? = some ']' then
      if s.tail.tail = [] then some [] else none
    else
      (pCachePair s.tail).bind fun pc =>
      (pPairsTail s.length pc.2).bind fun p =>
      if p.2 = [] then some (pc.1 :: p.1) else none
  else none

/-- `JSON.parse` of the `"inventory"` record: an array of coins. -/
def parseInventoryJson (s : Str) : Option (List Coin) :=
  if s.head? = some '[' then
    (pCoinsList s.length s.tail).bind fun p =>
    if p.2 = [] then some p.1 else none
  else none

/-- Collect a maximal digit run. -/
def takeDigits : Str → Str × Str
  | [] => ([], [])
  | c :: s =>
    if isDigitCh c then
      let p := takeDigits s
      (c :: p.1, p.2)
    else ([], c :: s)

def digitsVal (ds : Str) : Nat := ds.foldl (fun a c => a * 10 + digitVal c) 0

/-- Parse a JSON number into a rational (sign, integer part, optional
fraction). -/
def pNum (s : Str) : Option (ℚ × Str) :=
  let sign : ℚ := if s.head? = some '-' then -(mkRat 1 1) else mkRat 1 1
  let s1 := if s.head? = some '-' then s.tail else s
  (parseNatChars s1).bind fun pn =>
  if pn.2.head? = some '.' then
    let p := takeDigits pn.2.tail
    if p.1 = [] then none
    else some (qmul sign (qadd (pn.1 : ℚ) (mkRat (digitsVal p.1) (10 ^ p.1.length))), p.2)
  else some (qmul sign (pn.1 : ℚ), pn.2)

/-- Parse a JSON `LatLng` history point. -/
def pLatLng (s : Str) : Option ((ℚ × ℚ) × Str) :=
  (pExpect chLatKey s).bind fun s1 =>
  (pNum s1).bind fun pa =>
  (pExpect chLngKey pa.2).bind fun s2 =>
  (pNum s2).bind fun pb =>
  (pExpect chClose pb.2).map fun s3 => ((pa.1, pb.1), s3)

def pLatLngsTail : Nat → Str → Option (List (ℚ × ℚ) × Str)
  | 0, s => if s.head? = some ']' then some ([], s.tail) else none
  | fuel + 1, s =>
    if s.head? = some ']' then some ([], s.tail)
    else if s.head? = some ',' then
      (pLatLng s.tail).bind fun pc =>
      (pLatLngsTail fuel pc.2).map fun p => (pc.1 :: p.1, p.2)
    else none

/-- `JSON.parse` of the `"playerLocation"` record: an array of points. -/
def parseHistoryJson (s : Str) : Option (List (ℚ × ℚ)) :=
  if s.head? = some '[' then
    if s.tail.head? = some ']' then
      if s.tail.tail = [] then some [] else none
    else
      (pLatLng s.tail).bind fun pc =>
      (pLatLngsTail s.length pc.2).bind fun p =>
      if p.2 = [] then some (pc.1 :: p.1) else none
  else none

/-! ### Game state and operations -/

/-- The mutable program state: player data, the two cache maps, the movement
history (polyline), `localStorage`, and the object-reference allocator. -/
structure GameState where
  playerLocation : ℚ × ℚ
  playerInventory : List CoinObj
  caches : List (Str × Str)
  cacheMarkers : List (Str × Nat)
  history : List (ℚ × ℚ)
  storage : List (Str × Str)
  nextRef : Nat
deriving DecidableEq, Repr

/-- `saveCaches()`. -/
def saveCaches (s : GameState) : GameState :=
  {s with storage := mapSet s.storage kCaches (renderCaches s.caches)}

/-- `saveInventory()`. -/
def saveInventory (s : GameState) : GameState :=
  let str := renderInventory (s.playerInventory.map CoinObj.val)
  {s with storage := mapSet s.storage kInventory str}

/-- `savePlayerLocation()`. -/
def savePlayerLocation (s : GameState) : GameState :=
  {s with storage := mapSet s.storage kPlayerLocation (renderHistory s.history)}

/-- `Math.floor` on a rational: `num / den` with Euclidean division is the
floor since the denominator is positive. -/
def jsFloor (q : ℚ) : Int := q.num / q.den

theorem jsFloor_eq_floor (q : ℚ) : jsFloor q = Int.floor q := Rat.floor_def.symm

/-- `getVisibleCells(coord)`: the square neighborhood of cells around the
cell containing the coordinate. -/
def getVisibleCells (coord : ℚ × ℚ) : List Cell :=
  let oi : Int := jsFloor (qdiv coord.1 TILE_DEGREES)
  let oj : Int := jsFloor (qdiv coord.2 TILE_DEGREES)
  (List.range (2 * NEIGHBORHOOD_SIZE)).flatMap fun (di : Nat) =>
    (List.range (2 * NEIGHBORHOOD_SIZE)).map fun (dj : Nat) =>
      ⟨oi - (NEIGHBORHOOD_SIZE : Int) + (di : Int), oj - (NEIGHBORHOOD_SIZE : Int) + (dj : Int)⟩

/-- `generateCoins(cell, cache)`: the coins pushed into a fresh cache, and
the next free object reference. -/
def generateCoins (luck : Str → ℚ) (cell : Cell) (r : Nat) : List CoinObj × Nat :=
  let numCoins : Int := jsFloor (qadd (qmul (luck (numCoinsSeed cell)) (mkRat 3 1)) (mkRat 1 1))
  let n := numCoins.toNat
  ((List.range n).map fun k => ⟨r + k, cell, (k : Int)⟩, r + n)

/-- The registry-lookup-or-create step of `spawnCache` (the `if
(!caches.get(cellString))` block): the cache object, the updated registry,
and the reference of the leaflet rectangle allocated next. -/
def spawnCacheObtain (luck : Str → ℚ) (cell : Cell) (s : GameState) :
    Option (CacheObj × List (Str × Str) × Nat) :=
  let cellString := cellToString cell
  match mapGet s.caches cellString with
  | none =>
    let g := generateCoins luck cell s.nextRef
    let cache : CacheObj := ⟨cell, g.1⟩
    some (cache, mapSet s.caches cellString (toMomentoObj cache), g.2)
  | some m =>
    if m = [] then
      -- the empty string is falsy in JS
      let g := generateCoins luck cell s.nextRef
      let cache : CacheObj := ⟨cell, g.1⟩
      some (cache, mapSet s.caches cellString (toMomentoObj cache), g.2)
    else
      (fromMomentoObj m s.nextRef).map fun p => (p.1, s.caches, p.2)

/-- `spawnCache(cell)`: obtain or create the registry entry, create a fresh
rectangle marker, persist the registry, install the marker.  Returns the
local `cache` object captured by the popup closure.  `none` models a thrown
exception (corrupt stored memento). -/
def spawnCache (luck : Str → ℚ) (cell : Cell) (s : GameState) :
    Option (CacheObj × GameState) :=
  (spawnCacheObtain luck cell s).map fun t =>
    let rectRef := t.2.2
    let s1 : GameState := {s with caches := t.2.1, nextRef := rectRef + 1}
    let s2 := saveCaches s1
    (t.1, {s2 with cacheMarkers := mapSet s2.cacheMarkers (cellToString cell) rectRef})

/-- The spawn loop of `updateCaches`
(`for (const cell of newCells) spawnCache(cell)`). -/
def spawnLoop (luck : Str → ℚ) : List Cell → GameState → Option GameState
  | [], s => some s
  | cell :: cells, s => (spawnCache luck cell s).bind fun p => spawnLoop luck cells p.2

/-- `updateCaches()`: despawn markers outside the visible neighborhood, then
spawn caches for visible unmarked cells passing the luck test. -/
def updateCaches (luck : Str → ℚ) (s : GameState) : Option GameState :=
  let visibleCells := getVisibleCells s.playerLocation
  let visibleSet := visibleCells.map cellToString
  let markers1 := s.cacheMarkers.filter fun p => decide (p.1 ∈ visibleSet)
  let s1 : GameState := {s with cacheMarkers := markers1}
  let newCells := visibleCells.filter fun cell =>
    !(mapGet markers1 (cellToString cell)).isSome &&
      decide (luck (cellToString cell) < CACHE_SPAWN_PROBABILITY)
  spawnLoop luck newCells s1

/-- `Array.prototype.indexOf` on an array of coin objects: strict equality
(`===`) on objects is reference equality; the source's `-1` result is
modelled as `none`. -/
def coinIndexOf (coins : List CoinObj) (coin : CoinObj) : Option Nat :=
  match coins with
  | [] => none
  | c :: cs => if c.ref = coin.ref then some 0 else (coinIndexOf cs coin).map (· + 1)

/-- `collect(coin, cache)`: push the coin into the inventory, remove it from
the cache when found by `indexOf` (reference equality on objects),
re-serialise into the registry, persist registry and inventory. -/
def collect (coin : CoinObj) (cache : CacheObj) (s : GameState) :
    CacheObj × GameState :=
  let inventory1 := s.playerInventory ++ [coin]
  let idx := coinIndexOf cache.coins coin
  let coins1 := match idx with
    | some i => cache.coins.eraseIdx i
    | none => cache.coins
  let cache1 : CacheObj := ⟨cache.cell, coins1⟩
  let s1 : GameState :=
    { s with
      playerInventory := inventory1,
      caches := mapSet s.caches (cellToString cache.cell) (toMomentoObj cache1) }
  (cache1, saveInventory (saveCaches s1))

/-- `deposit(cache)`: pop the whole inventory onto the cache's coin array,
re-serialise, persist registry and inventory. -/
def deposit (cache : CacheObj) (s : GameState) : CacheObj × GameState :=
  let cache1 : CacheObj := ⟨cache.cell, cache.coins ++ s.playerInventory.reverse⟩
  let s1 : GameState :=
    { s with
      playerInventory := [],
      caches := mapSet s.caches (cellToString cache.cell) (toMomentoObj cache1) }
  (cache1, saveInventory (saveCaches s1))

/-- `movePlayer(newPos)`: set the location, append to the history, persist
the history, re-settle the caches. -/
def movePlayer (luck : Str → ℚ) (newPos : ℚ × ℚ) (s : GameState) :
    Option GameState :=
  let s1 : GameState :=
    { s with
      playerLocation := newPos,
      history := s.history ++ [newPos] }
  updateCaches luck (savePlayerLocation s1)

/-- `loadLocalStorage()`: sequentially load the three records; a present
record is parsed (`none` models the uncaught `JSON.parse` exception), a
missing — or falsy empty — record is skipped.  Restoring the location from a
present-but-empty history array throws (`array[-1].lat`). -/
def loadLocalStorage (s : GameState) : Option GameState :=
  (match mapGet s.storage kCaches with
    | none => some s
    | some str =>
      if str = [] then some s
      else (parseCachesJson str).map fun (pairs : List (Str × Str)) =>
        {s with caches := pairs.foldl (fun m (p : Str × Str) => mapSet m p.1 p.2) s.caches}).bind fun s1 =>
  (match mapGet s1.storage kInventory with
    | none => some s1
    | some str =>
      if str = [] then some s1
      else (parseInventoryJson str).map fun (coins : List Coin) =>
        { s1 with
          playerInventory := s1.playerInventory ++ allocCoins coins s1.nextRef,
          nextRef := s1.nextRef + coins.length }).bind fun s2 =>
  match mapGet s2.storage kPlayerLocation with
  | none => some s2
  | some str =>
    if str = [] then some s2
    else (parseHistoryJson str).bind fun (pts : List (ℚ × ℚ)) =>
      match pts.getLast? with
      | none => none
      | some last => some {s2 with history := pts, playerLocation := last}

/-- `initGame()`: reset player data, clear the cache maps, load persisted
state, re-settle visible caches, re-render (and persist) the inventory. -/
def initGame (luck : Str → ℚ) (s : GameState) : Option GameState :=
  let s1 : GameState :=
    { s with
      playerInventory := [],
      playerLocation := initialPlayerLocation,
      history := [initialPlayerLocation],
      caches := [],
      cacheMarkers := [] }
  (loadLocalStorage s1).bind fun s2 =>
  (updateCaches luck s2).map fun s3 =>
  saveInventory s3

/-- The `#reset` click listener: on confirmation clear `localStorage` and
re-initialise; on a declined confirmation return with no state change. -/
def resetListener (confirmed : Bool) (luck : Str → ℚ) (s : GameState) :
    Option GameState :=
  if confirmed then initGame luck {s with storage := []} else some s

/-! ### Map and registry lemmas -/

theorem mapGet_mapSet_self {α : Type} (m : List (Str × α)) (k : Str) (v : α) :
    mapGet (mapSet m k v) k = some v := by
  induction m with
  | nil => simp [mapSet, mapGet]
  | cons p m ih =>
    rcases p with ⟨k2, w⟩
    by_cases h : k2 = k
    · simp [mapSet, h, mapGet]
    · simp [mapSet, h, mapGet, ih]

theorem mapGet_mapSet_ne {α : Type} (m : List (Str × α)) (k k2 : Str) (v : α)
    (h : k2 ≠ k) : mapGet (mapSet m k v) k2 = mapGet m k2 := by
  induction m with
  | nil =>
    simp only [mapSet, mapGet]
    rw [if_neg (fun hh => h hh.symm)]
  | cons p m ih =>
    rcases p with ⟨k3, w⟩
    simp only [mapSet]
    by_cases h3 : k3 = k
    · rw [if_pos h3]
      have h32 : k3 ≠ k2 := fun hh => h (hh.symm.trans h3)
      simp only [mapGet]
      rw [if_neg h32, if_neg h32]
    · rw [if_neg h3]
      simp only [mapGet]
      by_cases h4 : k3 = k2
      · rw [if_pos h4, if_pos h4]
      · rw [if_neg h4, if_neg h4]
        exact ih

/-- Number of entries of a map under one key. -/
def keyCount {α : Type} (m : List (Str × α)) (k : Str) : Nat :=
  (m.filter fun p => decide (p.1 = k)).length

theorem keyCount_cons_self {α : Type} (k : Str) (w : α) (m : List (Str × α)) :
    keyCount ((k, w) :: m) k = keyCount m k + 1 := by
  simp [keyCount, List.filter_cons]

theorem keyCount_cons_ne {α : Type} (k k2 : Str) (w : α) (m : List (Str × α))
    (h : k2 ≠ k) : keyCount ((k2, w) :: m) k = keyCount m k := by
  simp [keyCount, List.filter_cons, h]

theorem keyCount_mapSet_of_le_one {α : Type} (m : List (Str × α)) (k : Str) (v : α)
    (h : keyCount m k ≤ 1) : keyCount (mapSet m k v) k = 1 := by
  induction m with
  | nil => simp [mapSet, keyCount]
  | cons p m ih =>
    rcases p with ⟨k2, w⟩
    by_cases h2 : k2 = k
    · subst h2
      have hset : mapSet ((k2, w) :: m) k2 v = (k2, v) :: m := by simp [mapSet]
      rw [hset, keyCount_cons_self]
      rw [keyCount_cons_self] at h
      omega
    · have hset : mapSet ((k2, w) :: m) k v = (k2, w) :: mapSet m k v := by
        simp [mapSet, h2]
      rw [hset, keyCount_cons_ne _ _ _ _ h2]
      rw [keyCount_cons_ne _ _ _ _ h2] at h
      exact ih h

/-- Number of coins recorded in one memento string. -/
def cacheCoinCount (m : Str) : Nat :=
  match fromMomentoChars m with
  | some c => c.coins.length
  | none => 0

/-- Total number of coins across all caches in the registry. -/
def registryCoinCount (caches : List (Str × Str)) : Nat :=
  (caches.map fun p => cacheCoinCount p.2).sum

/-- The conserved quantity of the coin-conservation property: registry coins
plus inventory coins. -/
def totalCoins (s : GameState) : Nat :=
  registryCoinCount s.caches + s.playerInventory.length

theorem registryCoinCount_mapSet (m : List (Str × Str)) (k : Str) (v w : Str)
    (hw : mapGet m k = some w) :
    registryCoinCount (mapSet m k v) + cacheCoinCount w =
      registryCoinCount m + cacheCoinCount v := by
  induction m with
  | nil => simp [mapGet] at hw
  | cons p m ih =>
    rcases p with ⟨k2, w2⟩
    by_cases h2 : k2 = k
    · subst h2
      have hw2 : w2 = w := by simpa [mapGet] using hw
      subst hw2
      have hset : mapSet ((k2, w2) :: m) k2 v = (k2, v) :: m := by simp [mapSet]
      rw [hset]
      simp only [registryCoinCount, List.map_cons, List.sum_cons]
      omega
    · simp only [mapGet, if_neg h2] at hw
      have hset : mapSet ((k2, w2) :: m) k v = (k2, w2) :: mapSet m k v := by
        simp [mapSet, h2]
      rw [hset]
      simp only [registryCoinCount, List.map_cons, List.sum_cons]
      have := ih hw
      simp only [registryCoinCount] at this
      omega

theorem toMomentoChars_ne_nil (c : Cache) : toMomentoChars c ≠ [] := by
  simp [toMomentoChars]

theorem toMomentoObj_ne_nil (c : CacheObj) : toMomentoObj c ≠ [] :=
  toMomentoChars_ne_nil c.val

theorem cacheObj_val_coins_length (c : CacheObj) : c.val.coins.length = c.coins.length := by
  simp [CacheObj.val]

theorem fromMomentoObj_toMomentoObj (c : CacheObj) (r : Nat) :
    fromMomentoObj (toMomentoObj c) r =
      some (⟨c.cell, allocCoins c.val.coins r⟩, r + c.coins.length) := by
  unfold fromMomentoObj toMomentoObj
  rw [momento_roundtrip]
  simp [CacheObj.val]

/-- The coin count stored under a memento written by `toMomento`. -/
theorem cacheCoinCount_toMomentoObj (c : CacheObj) :
    cacheCoinCount (toMomentoObj c) = c.coins.length := by
  unfold cacheCoinCount toMomentoObj
  rw [momento_roundtrip]
  exact cacheObj_val_coins_length c

theorem coinIndexOf_eq_none (coins : List CoinObj) (coin : CoinObj)
    (h : ∀ c ∈ coins, c.ref ≠ coin.ref) : coinIndexOf coins coin = none := by
  induction coins with
  | nil => rfl
  | cons c cs ih =>
    simp only [coinIndexOf, if_neg (h c (List.mem_cons_self c cs))]
    rw [ih fun x hx => h x (List.mem_cons_of_mem c hx)]
    rfl

theorem coinIndexOf_isSome (coins : List CoinObj) (coin : CoinObj)
    (h : coin ∈ coins) : ∃ i, coinIndexOf coins coin = some i ∧
      i < coins.length := by
  induction coins with
  | nil => simp at h
  | cons c cs ih =>
    by_cases hr : c.ref = coin.ref
    · exact ⟨0, by simp [coinIndexOf, hr], by simp⟩
    · have hmem : coin ∈ cs := by
        rcases List.mem_cons.mp h with rfl | hm
        · exact absurd rfl hr
        · exact hm
      rcases ih hmem with ⟨i, hi, hlen⟩
      refine ⟨i + 1, ?_, by simpa using hlen⟩
      simp [coinIndexOf, hr, hi]

/-! ### Claims -/

/-- **C2.** For every reachable `Cache` value `c` — any cell, any coin
sequence, including states reached after partial coin removal by `collect`
or addition by `deposit` — `fromMomento(toMomento(c))` is structurally equal
to `c` field-for-field.  The model quantifies over all `Cache` values, a
superset of the reachable ones. -/
theorem c2_momento_roundtrip (c : Cache) :
    fromMomentoChars (toMomentoChars c) = some c :=
  momento_roundtrip c

/-- **C9.** For every cell, the coin count generated at cache creation
equals `floor(generate(seed(cell, "numCoins")) * 3) + 1`, which lies in
`{1, 2, 3}` for every generator output in `[0, 1)`, and the generated coins
are exactly `{cell, serial: 0} .. {cell, serial: k-1}` with the home cell
recorded in each coin.  The deterministic generator `luck.ts` is not under
`src/`; per the spec it is an arbitrary function into `[0, 1)`, modelled as
a universally quantified parameter. -/
theorem c9_generateCoins_count_content (luck : Str → ℚ) (cell : Cell) (r : Nat)
    (h0 : 0 ≤ luck (numCoinsSeed cell)) (h1 : luck (numCoinsSeed cell) < 1) :
    ∃ k : Int, k = Int.floor (luck (numCoinsSeed cell) * 3) + 1 ∧
      (k = 1 ∨ k = 2 ∨ k = 3) ∧
      (generateCoins luck cell r).1 =
        (List.range k.toNat).map fun n => ⟨r + n, cell, (n : Int)⟩ := by
  set x := luck (numCoinsSeed cell) with hx
  refine ⟨jsFloor (qadd (qmul x (mkRat 3 1)) (mkRat 1 1)), ?_, ?_, rfl⟩
  · rw [jsFloor_eq_floor, qadd_eq, qmul_eq]
    rw [show ((mkRat 3 1 : ℚ)) = (3 : ℚ) from by rw [Rat.mkRat_one]; norm_num]
    rw [show ((mkRat 1 1 : ℚ)) = (1 : ℚ) from by rw [Rat.mkRat_one]; norm_num]
    exact Int.floor_add_one (x * 3)
  · rw [jsFloor_eq_floor, qadd_eq, qmul_eq]
    rw [show ((mkRat 3 1 : ℚ)) = (3 : ℚ) from by rw [Rat.mkRat_one]; norm_num]
    rw [show ((mkRat 1 1 : ℚ)) = (1 : ℚ) from by rw [Rat.mkRat_one]; norm_num]
    rw [Int.floor_add_one (x * 3)]
    have hl : (0 : Int) ≤ Int.floor (x * 3) :=
      Int.floor_nonneg.mpr (by positivity)
    have hu : Int.floor (x * 3) < 3 := by
      have : x * 3 < 3 := by nlinarith
      exact Int.floor_lt.mpr (by exact_mod_cast this)
    omega

/-- Witness for C9 at the constant-zero generator, cell `(0, 0)`. -/
theorem c9_witness :
    ∃ k : Int, k = Int.floor ((0 : ℚ) * 3) + 1 ∧ (k = 1 ∨ k = 2 ∨ k = 3) ∧
      (generateCoins (fun _ => (0 : ℚ)) ⟨0, 0⟩ 0).1 =
        (List.range k.toNat).map fun n => ⟨0 + n, ⟨0, 0⟩, (n : Int)⟩ :=
  c9_generateCoins_count_content (fun _ => (0 : ℚ)) ⟨0, 0⟩ 0 (le_refl 0) (by norm_num)

theorem length_flatMap_map {α : Type} (n m : Nat) (f : Nat → Nat → α) :
    ((List.range n).flatMap fun di => (List.range m).map (f di)).length = n * m := by
  rw [List.length_flatMap]
  have hrep : (List.map (List.length ∘ fun di => List.map (f di) (List.range m))
      (List.range n)) = List.replicate n m := by
    rw [List.eq_replicate_iff]
    refine ⟨by simp, ?_⟩
    intro b hb
    simp only [List.mem_map, Function.comp] at hb
    rcases hb with ⟨a, _, rfl⟩
    simp
  rw [hrep, List.sum_replicate, smul_eq_mul]

theorem getVisibleCells_mem (coord : ℚ × ℚ) (c : Cell) :
    c ∈ getVisibleCells coord ↔
      (jsFloor (qdiv coord.1 TILE_DEGREES) - (NEIGHBORHOOD_SIZE : Int) ≤ c.i ∧
       c.i < jsFloor (qdiv coord.1 TILE_DEGREES) + (NEIGHBORHOOD_SIZE : Int) ∧
       jsFloor (qdiv coord.2 TILE_DEGREES) - (NEIGHBORHOOD_SIZE : Int) ≤ c.j ∧
       c.j < jsFloor (qdiv coord.2 TILE_DEGREES) + (NEIGHBORHOOD_SIZE : Int)) := by
  obtain ⟨ci, cj⟩ := c
  simp only [getVisibleCells, List.mem_flatMap, List.mem_map, List.mem_range,
    Cell.mk.injEq, NEIGHBORHOOD_SIZE]
  constructor
  · rintro ⟨di, hdi, dj, hdj, hh1, hh2⟩
    refine ⟨by omega, by omega, by omega, by omega⟩
  · rintro ⟨h1, h2, h3, h4⟩
    exact ⟨(ci - (jsFloor (qdiv coord.1 TILE_DEGREES) - ((8 : Nat) : Int))).toNat, by omega,
           (cj - (jsFloor (qdiv coord.2 TILE_DEGREES) - ((8 : Nat) : Int))).toNat, by omega,
           by omega, by omega⟩

/-- **C10.** `getVisibleCells` is a pure function of the given location
(it takes only the coordinate and returns a list, touching no game state):
it returns exactly the `(2·NEIGHBORHOOD_SIZE)²` cells `{i, j}` with `i`
ranging over `[⌊lat/TILE_DEGREES⌋ − NEIGHBORHOOD_SIZE,
⌊lat/TILE_DEGREES⌋ + NEIGHBORHOOD_SIZE)` and `j` likewise. -/
theorem c10_getVisibleCells_window (coord : ℚ × ℚ) :
    (getVisibleCells coord).length = (2 * NEIGHBORHOOD_SIZE) ^ 2 ∧
    ∀ c : Cell, c ∈ getVisibleCells coord ↔
      (Int.floor (coord.1 / TILE_DEGREES) - (NEIGHBORHOOD_SIZE : Int) ≤ c.i ∧
       c.i < Int.floor (coord.1 / TILE_DEGREES) + (NEIGHBORHOOD_SIZE : Int) ∧
       Int.floor (coord.2 / TILE_DEGREES) - (NEIGHBORHOOD_SIZE : Int) ≤ c.j ∧
       c.j < Int.floor (coord.2 / TILE_DEGREES) + (NEIGHBORHOOD_SIZE : Int)) := by
  have hoi : jsFloor (qdiv coord.1 TILE_DEGREES) = Int.floor (coord.1 / TILE_DEGREES) := by
    rw [jsFloor_eq_floor, qdiv_eq]
  have hoj : jsFloor (qdiv coord.2 TILE_DEGREES) = Int.floor (coord.2 / TILE_DEGREES) := by
    rw [jsFloor_eq_floor, qdiv_eq]
  constructor
  · simp only [getVisibleCells]
    rw [length_flatMap_map, pow_two]
  · intro c
    rw [getVisibleCells_mem, hoi, hoj]

/-- Witness for C10 at location `(0, 0)` and cell `(0, 0)`. -/
theorem c10_witness :
    (getVisibleCells (mkRat 0 1, mkRat 0 1)).length = (2 * NEIGHBORHOOD_SIZE) ^ 2 ∧
    (Int.floor ((mkRat 0 1 : ℚ) / TILE_DEGREES) - (NEIGHBORHOOD_SIZE : Int) ≤ 0 ∧
     (0 : Int) < Int.floor ((mkRat 0 1 : ℚ) / TILE_DEGREES) + (NEIGHBORHOOD_SIZE : Int) ∧
     Int.floor ((mkRat 0 1 : ℚ) / TILE_DEGREES) - (NEIGHBORHOOD_SIZE : Int) ≤ 0 ∧
     (0 : Int) < Int.floor ((mkRat 0 1 : ℚ) / TILE_DEGREES) + (NEIGHBORHOOD_SIZE : Int)) :=
  ⟨(c10_getVisibleCells_window (mkRat 0 1, mkRat 0 1)).1,
   ((c10_getVisibleCells_window (mkRat 0 1, mkRat 0 1)).2 ⟨0, 0⟩).mp (by decide)⟩

theorem totalCoins_saveCaches (s : GameState) : totalCoins (saveCaches s) = totalCoins s := rfl

theorem totalCoins_saveInventory (s : GameState) :
    totalCoins (saveInventory s) = totalCoins s := rfl

/-- **C4.** For every coin not present in the target cache's coin sequence
(by value match on cell and serial), `collect(coin, cache)` is a no-op with
respect to the cache — the cache's coin sequence is left unchanged — and no
exception propagates to the caller (the model's `collect` is a total
function, and the source path throws nothing).  The hypothesis `hcons`
encodes JS heap consistency: a stored coin object carrying the argument's
reference is the same object and therefore has the same field values. -/
theorem c4_collect_absent_noop (coin : CoinObj) (cache : CacheObj) (s : GameState)
    (hcons : ∀ c ∈ cache.coins, c.ref = coin.ref →
      (c.cell = coin.cell ∧ c.serial = coin.serial))
    (habs : ∀ c ∈ cache.coins, ¬(c.cell = coin.cell ∧ c.serial = coin.serial)) :
    (collect coin cache s).1 = cache := by
  have hidx : coinIndexOf cache.coins coin = none :=
    coinIndexOf_eq_none _ _ fun c hc hr => habs c hc (hcons c hc hr)
  simp only [collect, hidx]

/-- Witness for C4: collecting a value-distinct coin from a one-coin cache. -/
theorem c4_witness :
    (collect ⟨1, ⟨0, 0⟩, 0⟩ ⟨⟨0, 0⟩, [⟨0, ⟨0, 0⟩, 1⟩]⟩
        ⟨(mkRat 0 1, mkRat 0 1), [], [], [], [], [], 2⟩).1 =
      ⟨⟨0, 0⟩, [⟨0, ⟨0, 0⟩, 1⟩]⟩ :=
  c4_collect_absent_noop ⟨1, ⟨0, 0⟩, 0⟩ ⟨⟨0, 0⟩, [⟨0, ⟨0, 0⟩, 1⟩]⟩
    ⟨(mkRat 0 1, mkRat 0 1), [], [], [], [], [], 2⟩ (by decide) (by decide)

/-- **C8 counterexample.** The claim states that `collect` matches coins as
value objects — removal whenever the argument's `(cell.i, cell.j, serial)`
fields equal those of a stored coin, regardless of reference identity.  In
the code `cache.coins.indexOf(coin)` compares object references: here the
argument (reference 1) is value-equal to the stored coin (reference 0), yet
the cache's coin sequence is left unchanged — the matching coin is not
removed. -/
theorem c8_counterexample :
    (∃ c ∈ ([⟨0, ⟨0, 0⟩, 0⟩] : List CoinObj),
        c.cell = (⟨0, 0⟩ : Cell) ∧ c.serial = (0 : Int)) ∧
    (collect ⟨1, ⟨0, 0⟩, 0⟩ ⟨⟨0, 0⟩, [⟨0, ⟨0, 0⟩, 0⟩]⟩
        ⟨(mkRat 0 1, mkRat 0 1), [], [], [], [], [], 2⟩).1.coins =
      [⟨0, ⟨0, 0⟩, 0⟩] := by
  constructor
  · exact ⟨⟨0, ⟨0, 0⟩, 0⟩, by decide, by decide⟩
  · decide

theorem eraseIdx_coinIndexOf (coins : List CoinObj) (coin : CoinObj)
    (hmem : coin ∈ coins) (hnd : (coins.map CoinObj.ref).Nodup) :
    ∃ i, coinIndexOf coins coin = some i ∧ coins.eraseIdx i = coins.erase coin := by
  induction coins with
  | nil => simp at hmem
  | cons c cs ih =>
    by_cases hr : c.ref = coin.ref
    · have hc : c = coin := by
        rcases List.mem_cons.mp hmem with h | hm
        · exact h.symm
        · exfalso
          have hin : coin.ref ∈ cs.map CoinObj.ref := List.mem_map_of_mem _ hm
          rw [List.map_cons] at hnd
          exact (List.nodup_cons.mp hnd).1 (hr ▸ hin)
      subst hc
      refine ⟨0, by simp [coinIndexOf], ?_⟩
      simp [List.eraseIdx]
    · have hm : coin ∈ cs := by
        rcases List.mem_cons.mp hmem with h | hm
        · exact absurd (h ▸ rfl) hr
        · exact hm
      have hnd2 : (cs.map CoinObj.ref).Nodup := by
        rw [List.map_cons] at hnd
        exact (List.nodup_cons.mp hnd).2
      rcases ih hm hnd2 with ⟨i, hi, he⟩
      refine ⟨i + 1, by simp [coinIndexOf, hr, hi], ?_⟩
      have hcne : ¬(c == coin) = true := by
        simp only [beq_iff_eq]
        exact fun hh => hr (hh ▸ rfl)
      rw [List.eraseIdx_cons_succ, List.erase_cons_tail hcne, he]

/-- **C8 (amended).** Coin removal in `collect` matches by object reference
(`Array.prototype.indexOf` uses strict equality, which on objects is
reference identity), not by value: when the argument is one of the stored
coin objects — references being unique, as allocation guarantees — collect
removes exactly that stored coin; a value-equal but distinct object is not
matched (see the counterexample). -/
theorem c8_amended_collect_ref_match (coin : CoinObj) (cache : CacheObj) (s : GameState)
    (hmem : coin ∈ cache.coins) (hnd : (cache.coins.map CoinObj.ref).Nodup) :
    (collect coin cache s).1.coins = cache.coins.erase coin := by
  rcases eraseIdx_coinIndexOf cache.coins coin hmem hnd with ⟨i, hi, he⟩
  simp only [collect, hi]
  exact he

/-- Witness for the amended C8 on a two-coin cache. -/
theorem c8_witness :
    (collect ⟨0, ⟨0, 0⟩, 0⟩ ⟨⟨0, 0⟩, [⟨0, ⟨0, 0⟩, 0⟩, ⟨1, ⟨0, 0⟩, 1⟩]⟩
        ⟨(mkRat 0 1, mkRat 0 1), [], [], [], [], [], 2⟩).1.coins =
      ([⟨0, ⟨0, 0⟩, 0⟩, ⟨1, ⟨0, 0⟩, 1⟩] : List CoinObj).erase ⟨0, ⟨0, 0⟩, 0⟩ :=
  c8_amended_collect_ref_match ⟨0, ⟨0, 0⟩, 0⟩ ⟨⟨0, 0⟩, [⟨0, ⟨0, 0⟩, 0⟩, ⟨1, ⟨0, 0⟩, 1⟩]⟩
    ⟨(mkRat 0 1, mkRat 0 1), [], [], [], [], [], 2⟩ (by decide) (by decide)

/-- The concrete state of the C3 counterexample: one registered cache
holding one coin, empty inventory. -/
def stC3 : GameState :=
  ⟨(mkRat 0 1, mkRat 0 1), [],
   [(cellToString ⟨0, 0⟩, toMomentoChars ⟨⟨0, 0⟩, [⟨⟨0, 0⟩, 0⟩]⟩)], [], [], [], 8⟩

/-- **C3 counterexample.** The claim states the coin total
(registry + inventory) is unchanged by each collect/deposit.  Collecting a
coin that is absent from the target cache pushes it into the inventory
anyway (`playerInventory.push(coin)` precedes the `indexOf` check), so the
total grows from 1 to 2 — the coin is duplicated. -/
theorem c3_counterexample :
    totalCoins (collect ⟨7, ⟨9, 9⟩, 3⟩ ⟨⟨0, 0⟩, [⟨5, ⟨0, 0⟩, 0⟩]⟩ stC3).2 =
      totalCoins stC3 + 1 ∧ totalCoins stC3 = 1 := by
  constructor
  · decide
  · decide

/-- **C3 (amended).** The coin total (coins across all registry mementos
plus the inventory) is unchanged by `deposit`, and by `collect` whenever the
collected coin is actually one of the cache's coin objects — provided the
live cache object agrees with its registry entry, as holds for the objects
the popup UI passes.  A collect of an absent coin instead duplicates it into
the inventory (see the counterexample). -/
theorem c3_amended_conservation (coin : CoinObj) (cache : CacheObj) (s : GameState)
    (hreg : mapGet s.caches (cellToString cache.cell) = some (toMomentoObj cache)) :
    (coin ∈ cache.coins → totalCoins (collect coin cache s).2 = totalCoins s) ∧
    totalCoins (deposit cache s).2 = totalCoins s := by
  constructor
  · intro hmem
    rcases coinIndexOf_isSome cache.coins coin hmem with ⟨i, hi, hlen⟩
    have hcnt := registryCoinCount_mapSet s.caches (cellToString cache.cell)
      (toMomentoObj ⟨cache.cell, cache.coins.eraseIdx i⟩) (toMomentoObj cache) hreg
    rw [cacheCoinCount_toMomentoObj, cacheCoinCount_toMomentoObj] at hcnt
    have herase : (cache.coins.eraseIdx i).length = cache.coins.length - 1 := by
      rw [List.length_eraseIdx]
      simp [hlen]
    simp only [collect, hi, totalCoins, saveInventory, saveCaches,
      List.length_append, List.length_cons, List.length_nil] at *
    omega
  · have hcnt := registryCoinCount_mapSet s.caches (cellToString cache.cell)
      (toMomentoObj ⟨cache.cell, cache.coins ++ s.playerInventory.reverse⟩)
      (toMomentoObj cache) hreg
    rw [cacheCoinCount_toMomentoObj, cacheCoinCount_toMomentoObj] at hcnt
    simp only [deposit, totalCoins, saveInventory, saveCaches,
      List.length_append, List.length_reverse, List.length_nil] at *
    omega

/-- The concrete cache and state of the C3 witness. -/
def cacheC3w : CacheObj := ⟨⟨0, 0⟩, [⟨0, ⟨0, 0⟩, 0⟩]⟩

def stC3w : GameState :=
  ⟨(mkRat 0 1, mkRat 0 1), [⟨1, ⟨2, 2⟩, 0⟩],
   [(cellToString ⟨0, 0⟩, toMomentoObj cacheC3w)], [], [], [], 2⟩

/-- Witness for the amended C3: collecting the present coin conserves the
total. -/
theorem c3_witness :
    totalCoins (collect ⟨0, ⟨0, 0⟩, 0⟩ cacheC3w stC3w).2 = totalCoins stC3w :=
  (c3_amended_conservation ⟨0, ⟨0, 0⟩, 0⟩ cacheC3w stC3w (by decide)).1 (by decide)

/-! ### Spawn lemmas -/

/-- The value content of a freshly created cache: a deterministic function
of the cell coordinates alone (through the generator). -/
def freshCacheVal (luck : Str → ℚ) (cell : Cell) : Cache :=
  ⟨cell, (List.range (jsFloor (qadd (qmul (luck (numCoinsSeed cell)) (mkRat 3 1))
    (mkRat 1 1))).toNat).map fun (n : Nat) => ⟨cell, (n : Int)⟩⟩

theorem generateCoins_val (luck : Str → ℚ) (cell : Cell) (r : Nat) :
    (CacheObj.mk cell (generateCoins luck cell r).1).val = freshCacheVal luck cell := by
  simp only [CacheObj.val, generateCoins, freshCacheVal, List.map_map, Cache.mk.injEq,
    true_and]
  apply List.map_congr_left
  intro a _
  rfl

theorem generateCoins_snd (luck : Str → ℚ) (cell : Cell) (r : Nat) :
    (generateCoins luck cell r).2 = r + (generateCoins luck cell r).1.length := by
  simp [generateCoins]

/-- `spawnCache` on a cell with no (non-falsy) registry entry: the creation
branch. -/
theorem spawnCache_create (luck : Str → ℚ) (cell : Cell) (s : GameState)
    (h : mapGet s.caches (cellToString cell) = none ∨
         mapGet s.caches (cellToString cell) = some []) :
    spawnCache luck cell s =
      some (⟨cell, (generateCoins luck cell s.nextRef).1⟩,
        { s with
          caches := mapSet s.caches (cellToString cell)
            (toMomentoObj ⟨cell, (generateCoins luck cell s.nextRef).1⟩),
          nextRef := (generateCoins luck cell s.nextRef).2 + 1,
          storage := mapSet s.storage kCaches (renderCaches (mapSet s.caches
            (cellToString cell)
            (toMomentoObj ⟨cell, (generateCoins luck cell s.nextRef).1⟩))),
          cacheMarkers := mapSet s.cacheMarkers (cellToString cell)
            (generateCoins luck cell s.nextRef).2 }) := by
  rcases h with h | h
  · simp only [spawnCache, spawnCacheObtain, h, Option.map_some']
    rfl
  · simp only [spawnCache, spawnCacheObtain, h, if_pos rfl, Option.map_some']
    rfl

/-- `spawnCache` on a cell with a parsable registry entry: the load branch.
The registry is left unchanged; the returned object is freshly allocated
from the stored memento. -/
theorem spawnCache_load (luck : Str → ℚ) (cell : Cell) (s : GameState) (m : Str)
    (v : Cache) (hm : mapGet s.caches (cellToString cell) = some m) (hne : m ≠ [])
    (hv : fromMomentoChars m = some v) :
    spawnCache luck cell s =
      some (⟨v.cell, allocCoins v.coins s.nextRef⟩,
        { s with
          nextRef := s.nextRef + v.coins.length + 1,
          storage := mapSet s.storage kCaches (renderCaches s.caches),
          cacheMarkers := mapSet s.cacheMarkers (cellToString cell)
            (s.nextRef + v.coins.length) }) := by
  simp only [spawnCache, spawnCacheObtain, hm, if_neg hne, fromMomentoObj, hv,
    Option.map_some']
  rfl

/-- The concrete generator and state of the C1/C5 scenarios: only cell
`(0, 0)` passes the spawn test; every `numCoins` seed yields two coins. -/
def luckC1 : Str → ℚ := fun s => if s = cellToString ⟨0, 0⟩ then mkRat 0 1 else mkRat 1 2

def scC1 : GameState := ⟨(mkRat 0 1, mkRat 0 1), [], [], [], [(mkRat 0 1, mkRat 0 1)], [], 0⟩

/-- **C1.** (i) When the registry has no (non-falsy) entry for a cell, the
first `spawnCache` call creates the entry, with content derived only from
the cell's coordinates (`freshCacheVal`), leaving all other entries
unchanged; (ii) every later `spawnCache` call for the cell loads the saved
memento instead of regenerating — the returned cache is the parsed memento
and the whole registry is unchanged; (iii) concretely: after spawning cell
`(0,0)` (two coins, serials 0 and 1), collecting the serial-0 coin,
despawning by moving out of range (the marker disappears, the registry
entry survives) and moving back into range, the respawned cache's registry
entry holds exactly the original coins minus the collected one. -/
theorem c1_memento_once_respawn_fidelity (luck : Str → ℚ) (cell : Cell) (s : GameState) :
    ((mapGet s.caches (cellToString cell) = none ∨
      mapGet s.caches (cellToString cell) = some []) →
      ∃ cache s1, spawnCache luck cell s = some (cache, s1) ∧
        cache.val = freshCacheVal luck cell ∧
        mapGet s1.caches (cellToString cell) =
          some (toMomentoChars (freshCacheVal luck cell)) ∧
        ∀ k, k ≠ cellToString cell → mapGet s1.caches k = mapGet s.caches k) ∧
    (∀ m v, mapGet s.caches (cellToString cell) = some m → m ≠ [] →
      fromMomentoChars m = some v →
      ∃ cache s1, spawnCache luck cell s = some (cache, s1) ∧
        cache.val = v ∧ s1.caches = s.caches) ∧
    (((spawnCache luckC1 ⟨0, 0⟩ scC1).bind fun p =>
      (movePlayer luckC1 (mkRat 100 1, mkRat 100 1)
         (collect ((p.1.coins.head?).getD ⟨99, ⟨0, 0⟩, 99⟩) p.1 p.2).2).bind fun s3 =>
      (movePlayer luckC1 (mkRat 0 1, mkRat 0 1) s3).map fun s4 =>
       (p.1.val, ((p.1.coins.head?).getD ⟨99, ⟨0, 0⟩, 99⟩).val,
        (mapGet s3.cacheMarkers (cellToString ⟨0, 0⟩)).isSome,
        (mapGet s4.cacheMarkers (cellToString ⟨0, 0⟩)).isSome,
        (mapGet s4.caches (cellToString ⟨0, 0⟩)).map fromMomentoChars)) =
     some (⟨⟨0, 0⟩, [⟨⟨0, 0⟩, 0⟩, ⟨⟨0, 0⟩, 1⟩]⟩, ⟨⟨0, 0⟩, 0⟩,
       false, true, some (some ⟨⟨0, 0⟩, [⟨⟨0, 0⟩, 1⟩]⟩))) := by
  refine ⟨?_, ?_, ?_⟩
  · intro h
    rw [spawnCache_create luck cell s h]
    refine ⟨_, _, rfl, generateCoins_val luck cell s.nextRef, ?_, ?_⟩
    · show mapGet (mapSet s.caches (cellToString cell) _) (cellToString cell) = _
      rw [mapGet_mapSet_self]
      unfold toMomentoObj
      rw [generateCoins_val]
    · intro k hk
      show mapGet (mapSet s.caches (cellToString cell) _) k = _
      exact mapGet_mapSet_ne _ _ _ _ hk
  · intro m v hm hne hv
    rw [spawnCache_load luck cell s m v hm hne hv]
    refine ⟨_, _, rfl, ?_, rfl⟩
    simp [CacheObj.val, allocCoins_val]
  · decide

/-- Witness for C1 at the scenario generator and the empty starting state
(the creation conjunct, hypothesis discharged by evaluation). -/
theorem c1_witness :
    ∃ cache s1, spawnCache luckC1 ⟨0, 0⟩ scC1 = some (cache, s1) ∧
      cache.val = freshCacheVal luckC1 ⟨0, 0⟩ ∧
      mapGet s1.caches (cellToString ⟨0, 0⟩) =
        some (toMomentoChars (freshCacheVal luckC1 ⟨0, 0⟩)) ∧
      ∀ k, k ≠ cellToString ⟨0, 0⟩ → mapGet s1.caches k = mapGet scC1.caches k :=
  (c1_memento_once_respawn_fidelity luckC1 ⟨0, 0⟩ scC1).1 (Or.inl (by decide))

/-- **C5 counterexample.** The claim states that a second `spawnCache` on
the same cell without an intervening despawn is a no-op with the existing
marker retained.  In the code `spawnCache` never consults the marker map: it
unconditionally creates a new rectangle and overwrites the marker entry.
Spawning cell `(0, 0)` twice on an empty state installs marker (rectangle
object) 2, then replaces it with the freshly created rectangle 5 — the
existing marker is not retained, so the second call is not a no-op. -/
theorem c5_counterexample :
    ((spawnCache luckC1 ⟨0, 0⟩ scC1).bind fun p =>
      (spawnCache luckC1 ⟨0, 0⟩ p.2).map fun q =>
        (mapGet p.2.cacheMarkers (cellToString ⟨0, 0⟩),
         mapGet q.2.cacheMarkers (cellToString ⟨0, 0⟩))) =
      some (some 2, some 5) := by decide

theorem c5_aux_second_spawn (luck : Str → ℚ) (cell : Cell) (s1 : GameState)
    (c1 : CacheObj) (m2 : Str) (r1 : Nat)
    (hreg : mapGet s1.caches (cellToString cell) = some m2)
    (hne : m2 ≠ []) (hv : fromMomentoChars m2 = some c1.val)
    (hmk : mapGet s1.cacheMarkers (cellToString cell) = some r1)
    (hr1 : r1 < s1.nextRef)
    (hcnt1 : keyCount s1.cacheMarkers (cellToString cell) ≤ 1) :
    ∃ c2 s2, spawnCache luck cell s1 = some (c2, s2) ∧
      s2.caches = s1.caches ∧
      c2.val = c1.val ∧
      keyCount s2.cacheMarkers (cellToString cell) = 1 ∧
      ∃ ra rb : Nat, mapGet s1.cacheMarkers (cellToString cell) = some ra ∧
        mapGet s2.cacheMarkers (cellToString cell) = some rb ∧ ra ≠ rb := by
  rw [spawnCache_load luck cell s1 m2 c1.val hreg hne hv]
  refine ⟨_, _, rfl, rfl, ?_, ?_, r1, s1.nextRef + c1.val.coins.length, hmk, ?_, ?_⟩
  · simp [CacheObj.val, allocCoins_val]
  · exact keyCount_mapSet_of_le_one _ _ _ hcnt1
  · show mapGet (mapSet s1.cacheMarkers (cellToString cell) _) (cellToString cell) = _
    rw [mapGet_mapSet_self]
  · omega

/-- **C5 (amended).** Calling `spawnCache` twice on the same cell without an
intervening despawn leaves the registry — including the entry's coin
content — entirely unchanged, and leaves exactly one marker-registry entry
for that cell; but the second call is not a no-op on the marker: it installs
a freshly created rectangle, replacing (not retaining) the existing marker
object.  `hcnt` records that the cell has at most one marker entry before
the first call, as holds in every reachable state. -/
theorem c5_amended_double_spawn (luck : Str → ℚ) (cell : Cell) (s : GameState)
    (c1 : CacheObj) (s1 : GameState) (h : spawnCache luck cell s = some (c1, s1))
    (hcnt : keyCount s.cacheMarkers (cellToString cell) ≤ 1) :
    ∃ c2 s2, spawnCache luck cell s1 = some (c2, s2) ∧
      s2.caches = s1.caches ∧
      c2.val = c1.val ∧
      keyCount s2.cacheMarkers (cellToString cell) = 1 ∧
      ∃ ra rb : Nat, mapGet s1.cacheMarkers (cellToString cell) = some ra ∧
        mapGet s2.cacheMarkers (cellToString cell) = some rb ∧ ra ≠ rb := by
  have hcreate : (mapGet s.caches (cellToString cell) = none ∨
      mapGet s.caches (cellToString cell) = some []) →
      ∃ c2 s2, spawnCache luck cell s1 = some (c2, s2) ∧
        s2.caches = s1.caches ∧ c2.val = c1.val ∧
        keyCount s2.cacheMarkers (cellToString cell) = 1 ∧
        ∃ ra rb : Nat, mapGet s1.cacheMarkers (cellToString cell) = some ra ∧
          mapGet s2.cacheMarkers (cellToString cell) = some rb ∧ ra ≠ rb := by
    intro hor
    rw [spawnCache_create luck cell s hor] at h
    have hh := Option.some.inj h
    have hc1 : (⟨cell, (generateCoins luck cell s.nextRef).1⟩ : CacheObj) = c1 :=
      congrArg Prod.fst hh
    have hs1 := congrArg Prod.snd hh
    simp only at hs1
    subst hc1
    subst hs1
    refine c5_aux_second_spawn luck cell _ _
      (toMomentoObj ⟨cell, (generateCoins luck cell s.nextRef).1⟩)
      ((generateCoins luck cell s.nextRef).2) ?_ (toMomentoObj_ne_nil _) ?_ ?_ ?_ ?_
    · show mapGet (mapSet s.caches (cellToString cell) _) (cellToString cell) = _
      rw [mapGet_mapSet_self]
    · exact momento_roundtrip _
    · show mapGet (mapSet s.cacheMarkers (cellToString cell) _) (cellToString cell) = _
      rw [mapGet_mapSet_self]
    · show (generateCoins luck cell s.nextRef).2 < (generateCoins luck cell s.nextRef).2 + 1
      omega
    · show keyCount (mapSet s.cacheMarkers (cellToString cell) _) (cellToString cell) ≤ 1
      rw [keyCount_mapSet_of_le_one _ _ _ hcnt]
  rcases hm : mapGet s.caches (cellToString cell) with _ | m
  · exact hcreate (Or.inl hm)
  · by_cases hmne : m = []
    · subst hmne
      exact hcreate (Or.inr hm)
    · rcases hv : fromMomentoChars m with _ | v
      · exfalso
        simp only [spawnCache, spawnCacheObtain, hm, if_neg hmne, fromMomentoObj, hv,
          Option.map_none'] at h
        exact Option.noConfusion h
      · rw [spawnCache_load luck cell s m v hm hmne hv] at h
        have hh := Option.some.inj h
        have hc1 : (⟨v.cell, allocCoins v.coins s.nextRef⟩ : CacheObj) = c1 :=
          congrArg Prod.fst hh
        have hs1 := congrArg Prod.snd hh
        simp only at hs1
        subst hc1
        subst hs1
        have hval : (⟨v.cell, allocCoins v.coins s.nextRef⟩ : CacheObj).val = v := by
          simp [CacheObj.val, allocCoins_val]
        refine c5_aux_second_spawn luck cell _ _ m (s.nextRef + v.coins.length)
          ?_ hmne ?_ ?_ ?_ ?_
        · exact hm
        · rw [hval]
          exact hv
        · show mapGet (mapSet s.cacheMarkers (cellToString cell) _) (cellToString cell) = _
          rw [mapGet_mapSet_self]
        · show s.nextRef + v.coins.length < s.nextRef + v.coins.length + 1
          omega
        · show keyCount (mapSet s.cacheMarkers (cellToString cell) _) (cellToString cell) ≤ 1
          rw [keyCount_mapSet_of_le_one _ _ _ hcnt]

/-- Witness for the amended C5: double spawn of cell `(0, 0)` from the
empty state. -/
theorem c5_witness :
    ∃ c2 s2, spawnCache luckC1 ⟨0, 0⟩
        ((spawnCache luckC1 ⟨0, 0⟩ scC1).getD (⟨⟨0, 0⟩, []⟩, scC1)).2 = some (c2, s2) ∧
      s2.caches = ((spawnCache luckC1 ⟨0, 0⟩ scC1).getD (⟨⟨0, 0⟩, []⟩, scC1)).2.caches ∧
      c2.val = ((spawnCache luckC1 ⟨0, 0⟩ scC1).getD (⟨⟨0, 0⟩, []⟩, scC1)).1.val ∧
      keyCount s2.cacheMarkers (cellToString ⟨0, 0⟩) = 1 ∧
      ∃ ra rb : Nat,
        mapGet ((spawnCache luckC1 ⟨0, 0⟩ scC1).getD
          (⟨⟨0, 0⟩, []⟩, scC1)).2.cacheMarkers (cellToString ⟨0, 0⟩) = some ra ∧
        mapGet s2.cacheMarkers (cellToString ⟨0, 0⟩) = some rb ∧ ra ≠ rb :=
  c5_amended_double_spawn luckC1 ⟨0, 0⟩ scC1
    ((spawnCache luckC1 ⟨0, 0⟩ scC1).getD (⟨⟨0, 0⟩, []⟩, scC1)).1
    ((spawnCache luckC1 ⟨0, 0⟩ scC1).getD (⟨⟨0, 0⟩, []⟩, scC1)).2
    (by decide) (by decide)

/-- Corrupt `"caches"` record (not JSON). -/
def stC6a : GameState :=
  ⟨(mkRat 0 1, mkRat 0 1), [], [], [], [], [(kCaches, ['#', '#', '#'])], 0⟩

/-- Present-but-empty `"playerLocation"` record. -/
def stC6b : GameState :=
  ⟨(mkRat 0 1, mkRat 0 1), [], [], [], [], [(kPlayerLocation, ['[', ']'])], 0⟩

/-- **C6 counterexample.** The claim states a corrupt storage record is
treated as absent with no fatal error, and that a present-but-empty
movement-history record falls back to the home location.  `loadLocalStorage`
has no exception handling: a corrupt `"caches"` record makes `JSON.parse`
throw (modelled `none`), aborting the load before the other records, and a
present `"playerLocation"` record holding `[]` throws on
`array[length - 1].lat`. -/
theorem c6_counterexample :
    loadLocalStorage stC6a = none ∧ loadLocalStorage stC6b = none :=
  ⟨by decide, by decide⟩

/-- **C6 (amended).** A missing (absent) storage record is treated as
absent: the corresponding in-memory record keeps its default, each record is
skipped independently of the others, and no error is raised — in
particular, when the movement history record is absent the player location
is left at the home location set by `initGame` before loading.  A corrupt
record, however, raises an uncaught exception, and a present-but-empty
history record also raises instead of falling back (see the
counterexample). -/
theorem c6_amended_load_defaults (s : GameState)
    (hc : mapGet s.storage kCaches = none)
    (hl : mapGet s.storage kPlayerLocation = none) :
    (mapGet s.storage kInventory = none → loadLocalStorage s = some s) ∧
    (∀ str coins, mapGet s.storage kInventory = some str → str ≠ [] →
      parseInventoryJson str = some coins →
      loadLocalStorage s = some { s with
        playerInventory := s.playerInventory ++ allocCoins coins s.nextRef,
        nextRef := s.nextRef + coins.length }) := by
  constructor
  · intro hi
    simp only [loadLocalStorage, hc, hi, hl, Option.some_bind]
  · intro str coins hstr hne hp
    simp only [loadLocalStorage, hc, hstr, if_neg hne, hp, Option.map_some',
      Option.some_bind, hl]

/-- The C6 witness state: only the `"inventory"` record present (empty
array). -/
def stC6w : GameState :=
  ⟨(mkRat 0 1, mkRat 0 1), [], [], [], [], [(kInventory, ['[', ']'])], 0⟩

/-- Witness for the amended C6: the present empty-inventory record loads
while the other two records default independently. -/
theorem c6_witness :
    loadLocalStorage stC6w = some { stC6w with
      playerInventory := stC6w.playerInventory ++ allocCoins [] stC6w.nextRef,
      nextRef := stC6w.nextRef + ([] : List Coin).length } :=
  (c6_amended_load_defaults stC6w (by decide) (by decide)).2 ['[', ']'] []
    (by decide) (by decide) (by decide)

/-! ### Reset and re-initialisation (C7) -/

/-- Every non-falsy registry entry parses (holds of every registry the game
itself writes, since entries come from `toMomento`). -/
def registryWellFormed (caches : List (Str × Str)) : Prop :=
  ∀ k m, mapGet caches k = some m → m ≠ [] → (fromMomentoChars m).isSome = true

/-- The cells near `pos` that pass the luck test (the spawn set over an empty
marker map). -/
def freshSpawnCells (luck : Str → ℚ) (pos : ℚ × ℚ) : List Cell :=
  (getVisibleCells pos).filter fun cell =>
    decide (luck (cellToString cell) < CACHE_SPAWN_PROBABILITY)

theorem mapGet_mapSet_cases {α : Type} (m : List (Str × α)) (k : Str) (v : α)
    (k2 : Str) (w : α) (h : mapGet (mapSet m k v) k2 = some w) :
    w = v ∨ mapGet m k2 = some w := by
  by_cases hk : k2 = k
  · subst hk
    rw [mapGet_mapSet_self] at h
    exact Or.inl (Option.some.inj h).symm
  · rw [mapGet_mapSet_ne _ _ _ _ hk] at h
    exact Or.inr h

theorem mapSet_ne_nil {α : Type} (m : List (Str × α)) (k : Str) (v : α) :
    mapSet m k v ≠ [] := by
  cases m with
  | nil => simp [mapSet]
  | cons p m =>
    rcases p with ⟨k2, w⟩
    simp only [mapSet]
    split <;> simp

/-- On a well-formed registry `spawnCache` always succeeds, and it touches
neither the inventory, the location, the history, nor any storage key other
than `"caches"`; the registry stays well-formed and becomes (or stays)
non-empty. -/
theorem spawnCache_success_spec (luck : Str → ℚ) (cell : Cell) (st : GameState)
    (hwf : registryWellFormed st.caches) :
    ∃ c st', spawnCache luck cell st = some (c, st') ∧
      st'.playerInventory = st.playerInventory ∧
      st'.playerLocation = st.playerLocation ∧
      st'.history = st.history ∧
      registryWellFormed st'.caches ∧
      (∀ k, k ≠ kCaches → mapGet st'.storage k = mapGet st.storage k) ∧
      st'.caches ≠ [] := by
  have hmain : mapGet st.caches (cellToString cell) = none ∨
      mapGet st.caches (cellToString cell) = some [] →
      ∃ c st', spawnCache luck cell st = some (c, st') ∧
        st'.playerInventory = st.playerInventory ∧
        st'.playerLocation = st.playerLocation ∧
        st'.history = st.history ∧
        registryWellFormed st'.caches ∧
        (∀ k, k ≠ kCaches → mapGet st'.storage k = mapGet st.storage k) ∧
        st'.caches ≠ [] := by
    intro h
    rw [spawnCache_create luck cell st h]
    refine ⟨_, _, rfl, rfl, rfl, rfl, ?_, ?_, ?_⟩
    · intro k m hget hmne
      rcases mapGet_mapSet_cases _ _ _ _ _ hget with rfl | hold
      · unfold toMomentoObj
        rw [momento_roundtrip]
        rfl
      · exact hwf k m hold hmne
    · intro k hk
      exact mapGet_mapSet_ne _ _ _ _ hk
    · exact mapSet_ne_nil _ _ _
  rcases hm : mapGet st.caches (cellToString cell) with _ | m
  · exact hmain (Or.inl hm)
  · by_cases hmne : m = []
    · subst hmne
      exact hmain (Or.inr hm)
    · have hps := hwf _ _ hm hmne
      rcases hv : fromMomentoChars m with _ | v
      · rw [hv] at hps
        simp at hps
      · rw [spawnCache_load luck cell st m v hm hmne hv]
        refine ⟨_, _, rfl, rfl, rfl, rfl, hwf, ?_, ?_⟩
        · intro k hk
          exact mapGet_mapSet_ne _ _ _ _ hk
        · intro hnil
          rw [hnil] at hm
          exact Option.noConfusion hm

/-- The spawn loop succeeds on a well-formed registry and preserves the same
frame as `spawnCache`; the registry ends empty exactly when it started empty
and no cell was spawned. -/
theorem spawnLoop_spec (luck : Str → ℚ) (cells : List Cell) (st : GameState)
    (hwf : registryWellFormed st.caches) :
    ∃ st', spawnLoop luck cells st = some st' ∧
      st'.playerInventory = st.playerInventory ∧
      st'.playerLocation = st.playerLocation ∧
      st'.history = st.history ∧
      registryWellFormed st'.caches ∧
      (∀ k, k ≠ kCaches → mapGet st'.storage k = mapGet st.storage k) ∧
      (st'.caches = [] ↔ (st.caches = [] ∧ cells = [])) := by
  induction cells generalizing st with
  | nil => exact ⟨st, rfl, rfl, rfl, rfl, hwf, fun _ _ => rfl, by simp⟩
  | cons cell cells ih =>
    rcases spawnCache_success_spec luck cell st hwf with
      ⟨c, st1, hsp, hinv1, hloc1, hhist1, hwf1, hstor1, hne1⟩
    rcases ih st1 hwf1 with ⟨st', hsl, hinv2, hloc2, hhist2, hwf2, hstor2, hiff2⟩
    refine ⟨st', ?_, hinv2.trans hinv1, hloc2.trans hloc1, hhist2.trans hhist1,
      hwf2, ?_, ?_⟩
    · have hstep : spawnLoop luck (cell :: cells) st =
        (spawnCache luck cell st).bind fun p => spawnLoop luck cells p.2 := rfl
      rw [hstep, hsp, Option.some_bind]
      exact hsl
    · intro k hk
      rw [hstor2 k hk, hstor1 k hk]
    · constructor
      · intro h
        exact absurd (hiff2.mp h).1 hne1
      · rintro ⟨_, h⟩
        exact absurd h (List.cons_ne_nil _ _)

/-- `updateCaches` starting from an empty marker map and empty registry: it
spawns exactly the luck-passing visible cells, leaving the registry empty iff
no visible cell passes. -/
theorem updateCaches_fresh (luck : Str → ℚ) (s : GameState)
    (hmk : s.cacheMarkers = []) (hca : s.caches = []) :
    ∃ s', updateCaches luck s = some s' ∧
      s'.playerInventory = s.playerInventory ∧
      s'.playerLocation = s.playerLocation ∧
      s'.history = s.history ∧
      (∀ k, k ≠ kCaches → mapGet s'.storage k = mapGet s.storage k) ∧
      (s'.caches = [] ↔ freshSpawnCells luck s.playerLocation = []) := by
  obtain ⟨loc, inv, ca, mk, hist, stor, nr⟩ := s
  have hmk' : mk = [] := hmk
  have hca' : ca = [] := hca
  subst hmk'
  subst hca'
  have key : updateCaches luck ⟨loc, inv, [], [], hist, stor, nr⟩ =
      spawnLoop luck (freshSpawnCells luck loc) ⟨loc, inv, [], [], hist, stor, nr⟩ := rfl
  have hwf0 : registryWellFormed (GameState.mk loc inv [] [] hist stor nr).caches := by
    intro k m h hne
    exact Option.noConfusion h
  rcases spawnLoop_spec luck (freshSpawnCells luck loc)
      ⟨loc, inv, [], [], hist, stor, nr⟩ hwf0 with
    ⟨s', hsl, hinv, hloc, hhist, _, hstor, hiff⟩
  refine ⟨s', key.trans hsl, hinv, hloc, hhist, hstor, ?_⟩
  rw [hiff]
  simp

/-- A state with no persisted records loads as the identity. -/
theorem loadLocalStorage_empty (s : GameState) (h : s.storage = []) :
    loadLocalStorage s = some s := by
  have h1 : mapGet s.storage kCaches = none := by rw [h]; rfl
  have h2 : mapGet s.storage kInventory = none := by rw [h]; rfl
  have h3 : mapGet s.storage kPlayerLocation = none := by rw [h]; rfl
  simp only [loadLocalStorage, h1, h2, h3, Option.some_bind]

/-- The player state `initGame` builds before loading: reset player data,
cleared cache maps, cleared storage, surviving ref counter. -/
def resetBase (r : Nat) : GameState :=
  ⟨initialPlayerLocation, [], [], [], [initialPlayerLocation], [], r⟩

theorem saveInventory_storage (s : GameState) :
    (saveInventory s).storage =
      mapSet s.storage kInventory (renderInventory (s.playerInventory.map CoinObj.val)) := rfl

/-- The C7 scenario: inventory holds 2 coins, one cache is spawned
(registry entry plus marker), all three storage records present. -/
def stC7 : GameState :=
  ⟨(mkRat 0 1, mkRat 0 1),
   [⟨0, ⟨0, 0⟩, 0⟩, ⟨1, ⟨0, 0⟩, 1⟩],
   [(cellToString ⟨0, 0⟩, toMomentoObj ⟨⟨0, 0⟩, []⟩)],
   [(cellToString ⟨0, 0⟩, 2)],
   [(mkRat 0 1, mkRat 0 1)],
   [(kCaches, ['x']), (kInventory, ['y']), (kPlayerLocation, ['z'])],
   3⟩

/-- A generator under whose output no cell passes the spawn test. -/
def luckC7 : Str → ℚ := fun _ => mkRat 1 2

set_option synthInstance.maxSize 1024 in
/-- **C7 counterexample.** A confirmed reset from the claim's scenario does
empty the inventory and the registry, clear the `"caches"` and
`"playerLocation"` records and return the player home — but the
`"inventory"` record is NOT left cleared: `initGame` ends with
`displayInventory`, whose `saveInventory` persists the fresh empty inventory,
so the key immediately holds `"[]"` again, contradicting the claim that the
persisted storage for all three keys is cleared. -/
theorem c7_counterexample :
    (resetListener true luckC7 stC7).map (fun s =>
      (s.playerInventory, s.caches, s.playerLocation,
        mapGet s.storage kCaches, mapGet s.storage kPlayerLocation,
        mapGet s.storage kInventory)) =
    some ([], [], initialPlayerLocation, none, none, some ['[', ']']) := by
  decide

/-- **C7 (amended).** A confirmed reset (from any state) succeeds and leaves
an empty inventory, the player at the home location with the history reset to
it, the `"playerLocation"` storage record cleared, the `"inventory"` record
re-persisted as the empty array `"[]"` (not cleared: `initGame` re-renders
and saves the inventory), and the registry empty exactly when no visible cell
around home passes the luck test (otherwise home caches respawn at once and
`"caches"` is re-persisted).  A declined reset changes nothing. -/
theorem c7_amended_reset (luck : Str → ℚ) (s : GameState) :
    (∃ s', resetListener true luck s = some s' ∧
      s'.playerInventory = [] ∧
      s'.playerLocation = initialPlayerLocation ∧
      s'.history = [initialPlayerLocation] ∧
      mapGet s'.storage kPlayerLocation = none ∧
      mapGet s'.storage kInventory = some (renderInventory []) ∧
      (s'.caches = [] ↔ freshSpawnCells luck initialPlayerLocation = [])) ∧
    resetListener false luck s = some s := by
  constructor
  · have hres : resetListener true luck s =
        (loadLocalStorage (resetBase s.nextRef)).bind fun s2 =>
          (updateCaches luck s2).map fun s3 => saveInventory s3 := rfl
    rcases updateCaches_fresh luck (resetBase s.nextRef) rfl rfl with
      ⟨s3, hup, hinv, hloc, hhist, hstor, hreg⟩
    refine ⟨saveInventory s3, ?_, ?_, ?_, ?_, ?_, ?_, ?_⟩
    · rw [hres, loadLocalStorage_empty (resetBase s.nextRef) rfl, Option.some_bind,
        hup, Option.map_some']
    · exact hinv
    · exact hloc
    · exact hhist
    · rw [saveInventory_storage, mapGet_mapSet_ne _ _ _ _ (by decide),
        hstor kPlayerLocation (by decide)]
      rfl
    · rw [saveInventory_storage, mapGet_mapSet_self, hinv]
      rfl
    · exact hreg
  · rfl

end Geocoin
